import Mathlib

/-!
Shallow embedding of the `cdk-managed-objects-bucket` custom-resource handler
(`src/handler/index.js`) and proofs about its specification.

The handler is an AWS Lambda entry point that reconciles an S3 bucket's
contents with a declared set of zip-archive assets and inline objects, then
fires CloudFront invalidations and reports a status callback to
CloudFormation.  External collaborators (S3, the zip decoder, the `mime-types`
database, CloudFront, the callback HTTP transport, `Date.now`, and the local
filesystem's failure behaviour) are modelled as an explicit environment
(`Env`) of pure functions; the handler's own control flow, data flow and
effect ordering are translated line by line from the source.  Effects are
recorded in a trace (`List Ev`); the bucket is modelled as a finite map from
object key to (content, content-type).

Concurrency note: the source runs independent contributors via `Promise.all`;
their effects touch disjoint state except when contributed paths collide, in
which case the run aborts before the bucket is touched.  The embedding
sequences contributors in declaration order, which matches `Promise.all`'s
result order and every observable outcome of the source.
-/

/-- Request type of a CloudFormation custom-resource event
(`event.RequestType` in the source). -/
inductive RequestType where
  | Create
  | Update
  | Delete
deriving DecidableEq

/-- One zip-archive asset declared in `props.assets`
(`{ hash, s3BucketName, s3ObjectKey }` in the source). -/
structure Asset where
  hash : String
  s3BucketName : String
  s3ObjectKey : String
deriving DecidableEq

/-- One inline object declared in `props.objects` (`{ key, body }`). -/
structure InlineObject where
  key : String
  body : String
deriving DecidableEq

/-- One invalidation action declared in `props.invalidationActions`
(`{ distributionId, waitForCompletion }`; an absent `waitForCompletion`
is falsy in the source and is modelled as `false`). -/
structure InvalidationAction where
  distributionId : String
  waitForCompletion : Bool
deriving DecidableEq

/-- `event.ResourceProperties.props` in the source. -/
structure Props where
  bucketUrl : String
  assets : List Asset
  objects : List InlineObject
  invalidationActions : List InvalidationAction

/-- The CloudFormation event received by the handler.  Only the fields the
source reads are modelled. -/
structure Event where
  requestType : RequestType
  requestId : String
  responseURL : String
  logicalResourceId : String
  stackId : String
  resourceType : String
  props : Props

/-- Result of one `GetInvalidation` call against CloudFront: a status string,
the `NoSuchInvalidation` error, or any other error. -/
inductive GetRes where
  | ok (status : String)
  | noSuchInvalidation
  | otherError (msg : String)
deriving DecidableEq

/-- Environment of external collaborators.  Each field gives the (pure)
behaviour of one external dependency during this invocation. -/
structure Env where
  /-- `process.env.SKIP`. -/
  skip : Option String
  /-- Fetching `s3://bucket/key` and unzipping it: the archive's file entries
  as (relative path, content) pairs (`glob` with `nodir: true` lists exactly
  these paths), or the error thrown by `GetObjectCommand` / `AdmZip`. -/
  fetchZip : String → String → Except String (List (String × String))
  /-- The `mime-types` database: `mime.lookup key`, `none` when the lookup
  returns `false` (unrecognized extension). -/
  mimeLookup : String → Option String
  /-- Outcome of the final `fs.promises.rm(workArea, { recursive: true })`
  (no `force`): `none` when it succeeds, `some msg` when it throws. -/
  rmFinalResult : Option String
  /-- `Status` of the invalidation returned by `CreateInvalidationCommand`
  for a distribution. -/
  createStatus : String → String
  /-- Result of the j-th `GetInvalidationCommand` poll for a distribution. -/
  getInvalidation : String → Nat → GetRes
  /-- `Date.now()` at the i-th `CreateInvalidationCommand` construction. -/
  now : Nat → Nat
  /-- HTTP status of the i-th callback `PUT` of this invocation. -/
  putStatus : Nat → Nat
  /-- `statusText` of the i-th callback `PUT` response. -/
  statusText : Nat → String

/-- The local staging tree under `/tmp/<requestId>/final`: relative path to
file content. -/
abbrev LocalTree := String → Option String

/-- The remote bucket: object key to (content, content-type). -/
abbrev Bucket := String → Option (String × String)

/-- Effects the handler performs, in order. -/
inductive Ev where
  /-- `fs.promises.rm(workArea, ...)`; the flag records `force: true`. -/
  | rmWorkArea (force : Bool)
  /-- `fs.promises.mkdir(finalPath, { recursive: true })`. -/
  | mkdirFinal
  /-- `GetObjectCommand` + unzip for one asset. -/
  | fetchAsset (s3BucketName s3ObjectKey : String)
  /-- `fs.promises.writeFile` of one inline object into the final tree. -/
  | writeObject (key : String)
  /-- `s3SyncClient.sync(finalPath, bucketUrl, ...)`; the flag records
  `del: true`. -/
  | sync (del : Bool)
  /-- `CreateInvalidationCommand` with its `CallerReference`. -/
  | createInvalidation (distributionId callerReference : String)
  /-- One `GetInvalidationCommand` poll. -/
  | getInvalidationPoll (distributionId : String) (pollIdx : Nat)
  /-- `await sleep(ms)`. -/
  | sleepMs (ms : Nat)
  /-- One callback `PUT` to `event.ResponseURL` with the body's fields
  (`Status, Reason, PhysicalResourceId, StackId, RequestId, ResourceType,
  LogicalResourceId`). -/
  | report (status : String) (reason : Option String)
      (physicalResourceId stackId requestId resourceType logicalResourceId : String)
deriving DecidableEq

/-- The empty staging tree (fresh `finalPath`). -/
def emptyTree : LocalTree := fun _ => none

/-- Writing one file into the staging tree (overwrites). -/
def writeFile (t : LocalTree) (k v : String) : LocalTree :=
  fun x => if x = k then some v else t x

/-- Copying an extracted archive into the staging tree
(`fs.promises.cp(unzipped, finalPath, { recursive: true })`). -/
def addFiles (t : LocalTree) (files : List (String × String)) : LocalTree :=
  files.foldl (fun acc f => writeFile acc f.1 f.2) t

/-- The file entries of one asset's archive under this environment
(empty on a fetch that would throw; only used when the fetch succeeded). -/
def zipFiles (env : Env) (a : Asset) : List (String × String) :=
  match env.fetchZip a.s3BucketName a.s3ObjectKey with
  | Except.ok fs => fs
  | Except.error _ => []

/-- Relative paths contributed by the declared assets, in declaration order:
for each asset, the `glob("**/*", { nodir: true })` listing of its extraction,
which is exactly the archive's file entries. -/
def assetPaths (env : Env) : List Asset → List String
  | [] => []
  | a :: rest => (zipFiles env a).map Prod.fst ++ assetPaths env rest

/-- The concatenated list of contributed relative paths (`files` in the
source): per-asset extraction listings, then inline object keys, flattened in
declaration order. -/
def contributedPaths (env : Env) (props : Props) : List String :=
  assetPaths env props.assets ++ props.objects.map (fun o => o.key)

/-- Number of occurrences of `k` in `l`. -/
def countOcc : List String → String → Nat
  | [], _ => 0
  | x :: rest, k => (if x = k then 1 else 0) + countOcc rest k

/-- One step of the frequency map construction: `map.set(item, existing + 1)`
on a JS `Map` (insertion-ordered association list). -/
def bump : List (String × Nat) → String → List (String × Nat)
  | [], k => [(k, 1)]
  | (k2, n) :: rest, k =>
      if k2 = k then (k2, n + 1) :: rest else (k2, n) :: bump rest k

/-- `getFrequencies` from the source: occurrence counts of each list item,
keyed by first occurrence. -/
def getFrequencies (l : List String) : List (String × Nat) :=
  l.foldl bump []

/-- Lookup in the frequency map, `0` when absent. -/
def lookupFreq : List (String × Nat) → String → Nat
  | [], _ => 0
  | (k2, n) :: rest, k => if k2 = k then n else lookupFreq rest k

/-- `duplicateFiles` from the source: entries of the frequency map with count
`> 1`, projected to their keys. -/
def duplicateKeys (l : List String) : List String :=
  ((getFrequencies l).filter fun e => decide (1 < e.2)).map Prod.fst

/-- JSON escaping of one character (the two escapes that can occur in object
keys are modelled; `JSON.stringify` in the source). -/
def jsonEscapeChar (c : Char) : String :=
  if c = '\\' ∨ c = '"' then "\\" ++ c.toString else c.toString

/-- `JSON.stringify` of a string. -/
def jsonStringOfString (s : String) : String :=
  "\"" ++ String.join (s.toList.map jsonEscapeChar) ++ "\""

/-- `JSON.stringify` of an array of strings. -/
def jsonStringOfList (l : List String) : String :=
  "[" ++ String.intercalate "," (l.map jsonStringOfString) ++ "]"

/-- The message of the error thrown on duplicate contributed paths. -/
def dupMsg (dups : List String) : String :=
  "Duplicate object keys: " ++ jsonStringOfList dups

/-- `mime.lookup(input.Key) || "text/html"` from the sync `commandInput`. -/
def mimeContentType (mimeLookup : String → Option String) (key : String) : String :=
  match mimeLookup key with
  | some m => m
  | none => "text/html"

/-- Effect of `s3SyncClient.sync(finalPath, bucketUrl, { del: true, ... })`:
the bucket's object set becomes exactly the local tree; an object whose
content is unchanged is not re-uploaded (it keeps its stored content-type), a
new or changed object is uploaded with the content-type computed by the
`commandInput` callback; `del: true` deletes every remote object with no
local counterpart. -/
def syncBucket (mimeLookup : String → Option String) (t : LocalTree) (b0 : Bucket) : Bucket :=
  fun k =>
    match t k with
    | none => none
    | some c =>
      match b0 k with
      | some (c0, ct0) =>
        if c0 = c then some (c0, ct0) else some (c, mimeContentType mimeLookup k)
      | none => some (c, mimeContentType mimeLookup k)

/-- Outcome of `deploy`: normal return, a thrown error (its message), or a
poll loop that never terminates (the host's timeout then kills the
invocation; no callback is ever sent). -/
inductive DeployOutcome where
  | ok
  | error (msg : String)
  | hang
deriving DecidableEq

/-- Outcome of `handler`: normal return, a re-thrown error, or a hung
invocation. -/
inductive HandlerOutcome where
  | ok
  | thrown (msg : String)
  | hang
deriving DecidableEq

/-- Outcome of the `while (status !== "Completed")` wait loop. -/
inductive WaitOutcome where
  | completed
  | failed (msg : String)
  | outOfFuel
deriving DecidableEq

/-- Staging of the declared assets (the `props.assets.map(async asset => ...)`
contributors): per asset, fetch and unzip, overlay the extraction onto the
final tree; a fetch/decode error rejects the whole `Promise.all`. -/
def stageAssets (env : Env) : List Asset → LocalTree → Except String LocalTree × List Ev
  | [], t => (Except.ok t, [])
  | a :: rest, t =>
    match env.fetchZip a.s3BucketName a.s3ObjectKey with
    | Except.error msg => (Except.error msg, [Ev.fetchAsset a.s3BucketName a.s3ObjectKey])
    | Except.ok fs =>
      ((stageAssets env rest (addFiles t fs)).1,
       Ev.fetchAsset a.s3BucketName a.s3ObjectKey :: (stageAssets env rest (addFiles t fs)).2)

/-- Writing the declared inline objects into the final tree
(the `props.objects.map(async object => ...)` contributors). -/
def writeObjectsTree : List InlineObject → LocalTree → LocalTree
  | [], t => t
  | o :: rest, t => writeObjectsTree rest (writeFile t o.key o.body)

/-- Trace of the inline-object contributors. -/
def writeObjectsTrace (objs : List InlineObject) : List Ev :=
  objs.map fun o => Ev.writeObject o.key

/-- The non-Delete staging/assembly block (source lines 60-88): run every
contributor, collect the final tree and the flattened list `files` of
contributed relative paths. -/
def assemble (env : Env) (props : Props) : Except String (LocalTree × List String) × List Ev :=
  match stageAssets env props.assets emptyTree with
  | (Except.error msg, tr) => (Except.error msg, tr)
  | (Except.ok t, tr) =>
    (Except.ok (writeObjectsTree props.objects t, contributedPaths env props),
     tr ++ writeObjectsTrace props.objects)

/-- The `while (status !== "Completed")` loop (source lines 120-133): sleep
1000 ms, poll `GetInvalidation`; a `NoSuchInvalidation` error sets the status
to `undefined` (modelled `none`) and continues; any other error is thrown.
`fuel` bounds the number of polls the model can take; running out of fuel
models the loop never observing completion. -/
def waitLoop (get : Nat → GetRes) (dist : String) : Nat → Nat → Option String → WaitOutcome × List Ev
  | 0, _, status =>
    if status = some "Completed" then (WaitOutcome.completed, [])
    else (WaitOutcome.outOfFuel, [])
  | fuel + 1, i, status =>
    if status = some "Completed" then (WaitOutcome.completed, [])
    else
      match get i with
      | GetRes.ok s =>
        ((waitLoop get dist fuel (i + 1) (some s)).1,
         Ev.sleepMs 1000 :: Ev.getInvalidationPoll dist i ::
           (waitLoop get dist fuel (i + 1) (some s)).2)
      | GetRes.noSuchInvalidation =>
        ((waitLoop get dist fuel (i + 1) none).1,
         Ev.sleepMs 1000 :: Ev.getInvalidationPoll dist i ::
           (waitLoop get dist fuel (i + 1) none).2)
      | GetRes.otherError msg =>
        (WaitOutcome.failed msg, [Ev.sleepMs 1000, Ev.getInvalidationPoll dist i])

/-- Conversion of the wait loop's outcome into the deploy outcome. -/
def waitOutcomeToDeploy : WaitOutcome → DeployOutcome
  | WaitOutcome.completed => DeployOutcome.ok
  | WaitOutcome.failed msg => DeployOutcome.error msg
  | WaitOutcome.outOfFuel => DeployOutcome.hang

/-- One invalidation action (source lines 106-134): create a wildcard
invalidation whose `CallerReference` is `Date.now().toString()` (`idx` is the
position of this `CreateInvalidationCommand` in the invocation), then wait
for completion when requested. -/
def dispatchOne (env : Env) (fuel idx : Nat) (a : InvalidationAction) : DeployOutcome × List Ev :=
  if a.waitForCompletion then
    (waitOutcomeToDeploy
       (waitLoop (env.getInvalidation a.distributionId) a.distributionId fuel 0
         (some (env.createStatus a.distributionId))).1,
     Ev.createInvalidation a.distributionId (toString (env.now idx)) ::
       (waitLoop (env.getInvalidation a.distributionId) a.distributionId fuel 0
         (some (env.createStatus a.distributionId))).2)
  else
    (DeployOutcome.ok, [Ev.createInvalidation a.distributionId (toString (env.now idx))])

/-- All declared invalidation actions (`Promise.all` over
`props.invalidationActions`, modelled in declaration order). -/
def dispatchInvalidations (env : Env) (fuel : Nat) : List InvalidationAction → Nat → DeployOutcome × List Ev
  | [], _ => (DeployOutcome.ok, [])
  | a :: rest, idx =>
    match (dispatchOne env fuel idx a).1 with
    | DeployOutcome.ok =>
      ((dispatchInvalidations env fuel rest (idx + 1)).1,
       (dispatchOne env fuel idx a).2 ++ (dispatchInvalidations env fuel rest (idx + 1)).2)
    | r => (r, (dispatchOne env fuel idx a).2)

/-- Tail of `deploy` after the final tree is determined (source lines
97-135): mirror the tree to the bucket with `del: true`, remove the work area
(without `force` — a failure here is thrown), then dispatch the invalidation
actions. -/
def deployMirror (env : Env) (fuel : Nat) (props : Props) (b0 : Bucket) (t : LocalTree)
    (tr : List Ev) : DeployOutcome × Bucket × List Ev :=
  match env.rmFinalResult with
  | some msg =>
    (DeployOutcome.error msg, syncBucket env.mimeLookup t b0,
     tr ++ [Ev.sync true, Ev.rmWorkArea false])
  | none =>
    ((dispatchInvalidations env fuel props.invalidationActions 0).1,
     syncBucket env.mimeLookup t b0,
     tr ++ [Ev.sync true, Ev.rmWorkArea false]
        ++ (dispatchInvalidations env fuel props.invalidationActions 0).2)

/-- `deploy` from the source: set up the work area, stage and validate the
contributors unless the request is a Delete, mirror the final tree to the
bucket, clean up, and fire invalidations. -/
def deploy (env : Env) (fuel : Nat) (event : Event) (b0 : Bucket) : DeployOutcome × Bucket × List Ev :=
  if event.requestType = RequestType.Delete then
    deployMirror env fuel event.props b0 emptyTree [Ev.rmWorkArea true, Ev.mkdirFinal]
  else
    match assemble env event.props with
    | (Except.error msg, tr) =>
      (DeployOutcome.error msg, b0, [Ev.rmWorkArea true, Ev.mkdirFinal] ++ tr)
    | (Except.ok (t, files), tr) =>
      if duplicateKeys files = [] then
        deployMirror env fuel event.props b0 t ([Ev.rmWorkArea true, Ev.mkdirFinal] ++ tr)
      else
        (DeployOutcome.error (dupMsg (duplicateKeys files)), b0,
         [Ev.rmWorkArea true, Ev.mkdirFinal] ++ tr)

/-- The message of the error thrown by `sendResponse` when the callback `PUT`
returns a status `>= 400`. -/
def reportFailureMsg (env : Env) (i : Nat) : String :=
  "Received " ++ toString (env.putStatus i) ++ " " ++ env.statusText i

/-- `sendResponse` from the source: `PUT` the callback body (with
`PhysicalResourceId` set to `event.LogicalResourceId`) to the response URL;
throw when the response status is `>= 400`.  `i` is the index of this `PUT`
within the invocation. -/
def sendResponse (env : Env) (i : Nat) (status : String) (reason : Option String)
    (event : Event) : Except String Unit × List Ev :=
  if 400 ≤ env.putStatus i then
    (Except.error (reportFailureMsg env i),
     [Ev.report status reason event.logicalResourceId event.stackId event.requestId
        event.resourceType event.logicalResourceId])
  else
    (Except.ok (),
     [Ev.report status reason event.logicalResourceId event.stackId event.requestId
        event.resourceType event.logicalResourceId])

/-- The success-reporting tail of `handler` (source lines 18-26, reached both
after `deploy` and on the SKIP path): send SUCCESS; if that send throws, try
to send FAILED with the send error's message (a failure of that second send
is swallowed) and re-throw the send error. -/
def handlerReport (env : Env) (event : Event) (b : Bucket) (tr : List Ev) :
    HandlerOutcome × Bucket × List Ev :=
  match (sendResponse env 0 "SUCCESS" none event).1 with
  | Except.ok _ => (HandlerOutcome.ok, b, tr ++ (sendResponse env 0 "SUCCESS" none event).2)
  | Except.error msg =>
    (HandlerOutcome.thrown msg, b,
     tr ++ (sendResponse env 0 "SUCCESS" none event).2
        ++ (sendResponse env 1 "FAILED" (some msg) event).2)

/-- `handler` from the source: skip `deploy` when `process.env.SKIP` is the
string `"true"`; on a `deploy` error, send FAILED with the error's message (a
failure of that send is logged and swallowed) and re-throw the original
error; otherwise report success. -/
def handler (env : Env) (fuel : Nat) (event : Event) (b0 : Bucket) :
    HandlerOutcome × Bucket × List Ev :=
  if env.skip = some "true" then
    handlerReport env event b0 []
  else
    match (deploy env fuel event b0).1 with
    | DeployOutcome.hang =>
      (HandlerOutcome.hang, (deploy env fuel event b0).2.1, (deploy env fuel event b0).2.2)
    | DeployOutcome.ok =>
      handlerReport env event (deploy env fuel event b0).2.1 (deploy env fuel event b0).2.2
    | DeployOutcome.error msg =>
      (HandlerOutcome.thrown msg, (deploy env fuel event b0).2.1,
       (deploy env fuel event b0).2.2 ++ (sendResponse env 0 "FAILED" (some msg) event).2)

/-- Selector for callback-report events in a trace. -/
def isReportEv : Ev → Bool
  | Ev.report _ _ _ _ _ _ _ => true
  | _ => false

/-- Selector for staging/assembly events (asset extraction and inline-object
writes) in a trace. -/
def isStagingEv : Ev → Bool
  | Ev.fetchAsset _ _ => true
  | Ev.writeObject _ => true
  | _ => false

/-- Number of callback reports in a trace. -/
def countReports (tr : List Ev) : Nat :=
  tr.countP isReportEv

/-- The `CallerReference` values of the `CreateInvalidationCommand` calls in
a trace, in order. -/
def callerRefs (tr : List Ev) : List String :=
  tr.filterMap fun e =>
    match e with
    | Ev.createInvalidation _ r => some r
    | _ => none

/-- The trace of `n` wait-loop iterations starting at poll index `i`: each
iteration is a 1000 ms sleep followed by one poll. -/
def pollBlocks (dist : String) : Nat → Nat → List Ev
  | _, 0 => []
  | i, n + 1 =>
    Ev.sleepMs 1000 :: Ev.getInvalidationPoll dist i :: pollBlocks dist (i + 1) n

/-- The caller references `Date.now().toString()` would produce for `n`
consecutive `CreateInvalidationCommand` calls starting at call index `idx`. -/
def expectedRefs (env : Env) : Nat → Nat → List String
  | _, 0 => []
  | idx, n + 1 => toString (env.now idx) :: expectedRefs env (idx + 1) n

/-- The empty bucket. -/
def bEmpty : Bucket := fun _ => none

/-- A benign concrete environment: no SKIP, empty archives, successful
cleanup, callback `PUT`s answered 200, a first poll that hits
`NoSuchInvalidation` and a second that reports completion, and a clock stuck
at millisecond 0. -/
def envBase : Env where
  skip := none
  fetchZip := fun _ _ => Except.ok []
  mimeLookup := fun _ => none
  rmFinalResult := none
  createStatus := fun _ => "InProgress"
  getInvalidation := fun _ j => if j = 0 then GetRes.noSuchInvalidation else GetRes.ok "Completed"
  now := fun _ => 0
  putStatus := fun _ => 200
  statusText := fun _ => "OK"

/-- Environment whose first callback `PUT` is answered 500 and whose second
is answered 200. -/
def envPut500first : Env :=
  { envBase with putStatus := fun i => if i = 0 then 500 else 200,
                 statusText := fun _ => "Internal Server Error" }

/-- Environment whose callback `PUT`s are all answered 500. -/
def envPutAll500 : Env :=
  { envBase with putStatus := fun _ => 500, statusText := fun _ => "Internal Server Error" }

/-- Environment in which the final work-area removal throws. -/
def envRmFail : Env := { envBase with rmFinalResult := some "EACCES: cleanup failed" }

/-- Environment with the SKIP escape hatch engaged. -/
def envSkip : Env := { envBase with skip := some "true" }

/-- Declared props with no assets, objects or invalidation actions. -/
def propsEmpty : Props where
  bucketUrl := "s3://b"
  assets := []
  objects := []
  invalidationActions := []

/-- A minimal Create event. -/
def eventTrivial : Event where
  requestType := RequestType.Create
  requestId := "r"
  responseURL := "u"
  logicalResourceId := "L"
  stackId := "s"
  resourceType := "Custom::ManagedBucketObjects"
  props := propsEmpty

/-- A minimal Delete event. -/
def eventDelete : Event := { eventTrivial with requestType := RequestType.Delete }

/-- Props declaring two inline objects with the same key. -/
def propsDupObjects : Props :=
  { propsEmpty with objects := [{ key := "a.txt", body := "1" }, { key := "a.txt", body := "2" }] }

/-- A Create event contributing the key `a.txt` twice. -/
def eventDupObjects : Event := { eventTrivial with props := propsDupObjects }

/-- Props declaring a single inline object. -/
def propsOneObject : Props :=
  { propsEmpty with objects := [{ key := "index.html", body := "<h1>hi</h1>" }] }

/-- A Create event contributing exactly one inline object. -/
def eventOneObject : Event := { eventTrivial with props := propsOneObject }

/-- Props declaring two no-wait invalidation actions. -/
def propsTwoInvalidations : Props :=
  { propsEmpty with invalidationActions :=
      [{ distributionId := "D1", waitForCompletion := false },
       { distributionId := "D2", waitForCompletion := false }] }

/-- A Create event with two no-wait invalidation actions. -/
def eventTwoInvalidations : Event := { eventTrivial with props := propsTwoInvalidations }

/-- A poll oracle whose first poll hits `NoSuchInvalidation` and whose second
reports completion. -/
def pollsC6 : Nat → GetRes :=
  fun j => if j = 0 then GetRes.noSuchInvalidation else GetRes.ok "Completed"

/-- Keys of a frequency map are pairwise distinct. -/
def distinctKeys (m : List (String × Nat)) : Prop :=
  m.Pairwise fun a b => a.1 ≠ b.1

theorem bump_cons (k2 : String) (n2 : Nat) (rest : List (String × Nat)) (k : String) :
    bump ((k2, n2) :: rest) k
      = if k2 = k then (k2, n2 + 1) :: rest else (k2, n2) :: bump rest k := rfl

theorem lookupFreq_cons (k2 : String) (n2 : Nat) (rest : List (String × Nat)) (k : String) :
    lookupFreq ((k2, n2) :: rest) k = if k2 = k then n2 else lookupFreq rest k := rfl

theorem countOcc_cons (x : String) (rest : List String) (k : String) :
    countOcc (x :: rest) k = (if x = k then 1 else 0) + countOcc rest k := rfl

theorem lookupFreq_bump_self (m : List (String × Nat)) (k : String) :
    lookupFreq (bump m k) k = lookupFreq m k + 1 := by
  induction m with
  | nil => simp [bump, lookupFreq]
  | cons e rest ih =>
    obtain ⟨k2, n⟩ := e
    rw [bump_cons]
    by_cases h : k2 = k
    · rw [if_pos h, lookupFreq_cons, lookupFreq_cons, if_pos h, if_pos h]
    · rw [if_neg h, lookupFreq_cons, lookupFreq_cons, if_neg h, if_neg h, ih]

theorem lookupFreq_bump_ne (m : List (String × Nat)) (k k' : String) (h : k' ≠ k) :
    lookupFreq (bump m k) k' = lookupFreq m k' := by
  induction m with
  | nil =>
    have h2 : ¬ (k = k') := fun hh => h hh.symm
    simp [bump, lookupFreq, h2]
  | cons e rest ih =>
    obtain ⟨k2, n⟩ := e
    rw [bump_cons]
    by_cases h2 : k2 = k
    · have h3 : ¬ (k2 = k') := by rw [h2]; exact fun hh => h hh.symm
      rw [if_pos h2, lookupFreq_cons, lookupFreq_cons, if_neg h3, if_neg h3]
    · rw [if_neg h2, lookupFreq_cons, lookupFreq_cons]
      by_cases h3 : k2 = k'
      · rw [if_pos h3, if_pos h3]
      · rw [if_neg h3, if_neg h3, ih]

theorem lookupFreq_foldl_bump (l : List String) :
    ∀ (m : List (String × Nat)) (k : String),
      lookupFreq (l.foldl bump m) k = lookupFreq m k + countOcc l k := by
  induction l with
  | nil => intro m k; simp [countOcc]
  | cons a rest ih =>
    intro m k
    rw [List.foldl_cons, ih, countOcc_cons]
    by_cases h : a = k
    · rw [if_pos h, h, lookupFreq_bump_self]
      omega
    · have h2 : k ≠ a := fun hh => h hh.symm
      rw [if_neg h, lookupFreq_bump_ne m a k h2]
      omega

theorem lookupFreq_getFrequencies (l : List String) (k : String) :
    lookupFreq (getFrequencies l) k = countOcc l k := by
  show lookupFreq (l.foldl bump []) k = countOcc l k
  rw [lookupFreq_foldl_bump]
  simp [lookupFreq]

theorem mem_bump_keys (m : List (String × Nat)) (k : String) (e : String × Nat)
    (h : e ∈ bump m k) : (∃ n, (e.1, n) ∈ m) ∨ e.1 = k := by
  induction m with
  | nil =>
    simp [bump] at h
    right
    rw [h]
  | cons e2 rest ih =>
    obtain ⟨k2, n2⟩ := e2
    rw [bump_cons] at h
    by_cases h2 : k2 = k
    · rw [if_pos h2] at h
      rcases List.mem_cons.mp h with h1 | h1
      · right
        rw [h1]
        exact h2
      · left
        exact ⟨e.2, by rw [Prod.mk.eta]; exact List.mem_cons_of_mem _ h1⟩
    · rw [if_neg h2] at h
      rcases List.mem_cons.mp h with h1 | h1
      · left
        refine ⟨e.2, ?_⟩
        rw [Prod.mk.eta, h1]
        exact List.mem_cons_self _ _
      · rcases ih h1 with ⟨n, hn⟩ | hk
        · left
          exact ⟨n, List.mem_cons_of_mem _ hn⟩
        · right
          exact hk

theorem distinctKeys_bump (m : List (String × Nat)) (k : String)
    (h : distinctKeys m) : distinctKeys (bump m k) := by
  induction m with
  | nil => simp [bump, distinctKeys]
  | cons e rest ih =>
    obtain ⟨k2, n2⟩ := e
    simp only [distinctKeys, List.pairwise_cons] at h
    obtain ⟨hhead, htail⟩ := h
    simp only [distinctKeys]
    rw [bump_cons]
    by_cases h2 : k2 = k
    · rw [if_pos h2, List.pairwise_cons]
      exact ⟨fun e2 he2 => hhead e2 he2, htail⟩
    · rw [if_neg h2, List.pairwise_cons]
      constructor
      · intro e2 he2
        rcases mem_bump_keys rest k e2 he2 with ⟨n, hn⟩ | hk
        · exact hhead (e2.1, n) hn
        · rw [hk]
          exact h2
      · exact ih htail

theorem distinctKeys_foldl_bump (l : List String) :
    ∀ m, distinctKeys m → distinctKeys (l.foldl bump m) := by
  induction l with
  | nil => intro m h; exact h
  | cons a rest ih =>
    intro m h
    exact ih (bump m a) (distinctKeys_bump m a h)

theorem distinctKeys_getFrequencies (l : List String) :
    distinctKeys (getFrequencies l) := by
  exact distinctKeys_foldl_bump l [] (by simp [distinctKeys])

theorem lookupFreq_of_mem (m : List (String × Nat)) (k : String) (n : Nat)
    (hd : distinctKeys m) (h : (k, n) ∈ m) : lookupFreq m k = n := by
  induction m with
  | nil => simp at h
  | cons e rest ih =>
    obtain ⟨k2, n2⟩ := e
    simp only [distinctKeys, List.pairwise_cons] at hd
    obtain ⟨hhead, htail⟩ := hd
    rw [lookupFreq_cons]
    rcases List.mem_cons.mp h with h1 | h1
    · have hk : k2 = k := (congrArg Prod.fst h1).symm
      have hn : n = n2 := congrArg Prod.snd h1
      rw [if_pos hk]
      exact hn.symm
    · have hne : ¬ (k2 = k) := hhead (k, n) h1
      rw [if_neg hne]
      exact ih htail h1

theorem mem_of_lookupFreq (m : List (String × Nat)) (k : String) (n : Nat)
    (h : lookupFreq m k = n) (hn : n ≠ 0) : (k, n) ∈ m := by
  induction m with
  | nil =>
    have h0 : (0 : Nat) = n := h
    exact absurd h0.symm hn
  | cons e rest ih =>
    obtain ⟨k2, n2⟩ := e
    rw [lookupFreq_cons] at h
    by_cases h2 : k2 = k
    · rw [if_pos h2] at h
      rw [← h2, ← h]
      exact List.mem_cons_self _ _
    · rw [if_neg h2] at h
      exact List.mem_cons_of_mem _ (ih h)

theorem mem_duplicateKeys_iff (l : List String) (k : String) :
    k ∈ duplicateKeys l ↔ 1 < countOcc l k := by
  constructor
  · intro h
    simp only [duplicateKeys, List.mem_map] at h
    obtain ⟨e, he, hk⟩ := h
    rw [List.mem_filter] at he
    obtain ⟨hmem, hcount⟩ := he
    have hc : 1 < e.2 := of_decide_eq_true hcount
    have hmem2 : (e.1, e.2) ∈ getFrequencies l := by
      rw [Prod.mk.eta]
      exact hmem
    have hl : lookupFreq (getFrequencies l) e.1 = e.2 :=
      lookupFreq_of_mem _ _ _ (distinctKeys_getFrequencies l) hmem2
    rw [lookupFreq_getFrequencies] at hl
    rw [← hk, hl]
    exact hc
  · intro h
    have hl : lookupFreq (getFrequencies l) k = countOcc l k :=
      lookupFreq_getFrequencies l k
    have hmem : (k, countOcc l k) ∈ getFrequencies l :=
      mem_of_lookupFreq _ _ _ hl (by omega)
    simp only [duplicateKeys, List.mem_map]
    refine ⟨(k, countOcc l k), ?_, rfl⟩
    rw [List.mem_filter]
    exact ⟨hmem, decide_eq_true h⟩

theorem duplicateKeys_ne_nil_of_dup (l : List String) (k : String)
    (h : 1 < countOcc l k) : duplicateKeys l ≠ [] := by
  intro hnil
  have hm := (mem_duplicateKeys_iff l k).mpr h
  rw [hnil] at hm
  simp at hm

theorem writeFile_isSome (t : LocalTree) (k v x : String) :
    ((writeFile t k v) x).isSome = true ↔ x = k ∨ (t x).isSome = true := by
  unfold writeFile
  by_cases h : x = k
  · rw [if_pos h]
    simp [h]
  · rw [if_neg h]
    simp [h]

theorem addFiles_isSome (files : List (String × String)) :
    ∀ (t : LocalTree) (k : String),
      ((addFiles t files) k).isSome = true ↔ (t k).isSome = true ∨ k ∈ files.map Prod.fst := by
  induction files with
  | nil =>
    intro t k
    simp [addFiles]
  | cons f rest ih =>
    intro t k
    have hstep : addFiles t (f :: rest) = addFiles (writeFile t f.1 f.2) rest := rfl
    rw [hstep, ih, writeFile_isSome]
    simp only [List.map_cons, List.mem_cons]
    tauto

theorem writeObjectsTree_isSome (objs : List InlineObject) :
    ∀ (t : LocalTree) (k : String),
      ((writeObjectsTree objs t) k).isSome = true
        ↔ (t k).isSome = true ∨ k ∈ objs.map (fun o => o.key) := by
  induction objs with
  | nil =>
    intro t k
    simp [writeObjectsTree]
  | cons o rest ih =>
    intro t k
    have hstep : writeObjectsTree (o :: rest) t = writeObjectsTree rest (writeFile t o.key o.body) := rfl
    rw [hstep, ih, writeFile_isSome]
    simp only [List.map_cons, List.mem_cons]
    tauto

theorem stageAssets_ok (env : Env) :
    ∀ (assets : List Asset) (t0 : LocalTree),
      (∀ a ∈ assets, ∃ fs, env.fetchZip a.s3BucketName a.s3ObjectKey = Except.ok fs) →
      ∃ t, (stageAssets env assets t0).1 = Except.ok t ∧
        ∀ k, (t k).isSome = true ↔ ((t0 k).isSome = true ∨ k ∈ assetPaths env assets) := by
  intro assets
  induction assets with
  | nil =>
    intro t0 _
    refine ⟨t0, rfl, ?_⟩
    intro k
    simp [assetPaths]
  | cons a rest ih =>
    intro t0 hfetch
    obtain ⟨fs, hfs⟩ := hfetch a (List.mem_cons_self _ _)
    obtain ⟨t, ht, hdom⟩ := ih (addFiles t0 fs) (fun a2 ha2 => hfetch a2 (List.mem_cons_of_mem _ ha2))
    refine ⟨t, ?_, ?_⟩
    · simp only [stageAssets, hfs]
      exact ht
    · intro k
      rw [hdom k, addFiles_isSome]
      have hz : zipFiles env a = fs := by simp [zipFiles, hfs]
      simp only [assetPaths, hz, List.mem_append]
      tauto

theorem assemble_ok (env : Env) (props : Props)
    (hfetch : ∀ a ∈ props.assets, ∃ fs, env.fetchZip a.s3BucketName a.s3ObjectKey = Except.ok fs) :
    ∃ t, (assemble env props).1 = Except.ok (t, contributedPaths env props) ∧
      ∀ k, (t k).isSome = true ↔ k ∈ contributedPaths env props := by
  obtain ⟨t1, h1, hdom1⟩ := stageAssets_ok env props.assets emptyTree hfetch
  refine ⟨writeObjectsTree props.objects t1, ?_, ?_⟩
  · unfold assemble
    generalize htr : (stageAssets env props.assets emptyTree).2 = tr
    have hpair : stageAssets env props.assets emptyTree = (Except.ok t1, tr) := by
      rw [← h1, ← htr]
    rw [hpair]
  · intro k
    rw [writeObjectsTree_isSome, hdom1 k]
    simp only [contributedPaths, List.mem_append, emptyTree, Option.isSome_none,
      Bool.false_eq_true, false_or]

theorem syncBucket_isSome (ml : String → Option String) (t : LocalTree) (b0 : Bucket)
    (k : String) : ((syncBucket ml t b0) k).isSome = true ↔ (t k).isSome = true := by
  unfold syncBucket
  cases ht : t k with
  | none => simp [ht]
  | some c =>
    cases hb : b0 k with
    | none => simp [ht, hb]
    | some p =>
      obtain ⟨c0, ct0⟩ := p
      by_cases h : c0 = c
      · simp [ht, hb, h]
      · simp [ht, hb, h]

theorem syncBucket_uploaded (ml : String → Option String) (t : LocalTree) (b0 : Bucket)
    (k : String) (v : String × String) (h : (syncBucket ml t b0) k = some v) :
    b0 k = some v ∨ v.2 = mimeContentType ml k := by
  unfold syncBucket at h
  split at h
  · simp at h
  · next c ht =>
    split at h
    · next c0 ct0 hb =>
      split at h
      · left
        rw [hb, Option.some.inj h]
      · right
        rw [← Option.some.inj h]
    · next hb =>
      right
      rw [← Option.some.inj h]

theorem syncBucket_emptyTree (ml : String → Option String) (b0 : Bucket) (k : String) :
    (syncBucket ml emptyTree b0) k = none := rfl

theorem mem_stageAssets_trace (env : Env) :
    ∀ (assets : List Asset) (t : LocalTree) (e : Ev),
      e ∈ (stageAssets env assets t).2 → ∃ b k, e = Ev.fetchAsset b k := by
  intro assets
  induction assets with
  | nil =>
    intro t e h
    simp [stageAssets] at h
  | cons a rest ih =>
    intro t e h
    cases hf : env.fetchZip a.s3BucketName a.s3ObjectKey with
    | error msg =>
      simp only [stageAssets, hf, List.mem_singleton] at h
      exact ⟨_, _, h⟩
    | ok fs =>
      simp only [stageAssets, hf, List.mem_cons] at h
      rcases h with h | h
      · exact ⟨_, _, h⟩
      · exact ih _ e h

theorem mem_assemble_trace (env : Env) (props : Props) (e : Ev)
    (h : e ∈ (assemble env props).2) :
    (∃ b k, e = Ev.fetchAsset b k) ∨ ∃ k, e = Ev.writeObject k := by
  unfold assemble at h
  rcases hst : stageAssets env props.assets emptyTree with ⟨r, tr⟩
  rw [hst] at h
  have htr : ∀ e2 ∈ tr, ∃ b k, e2 = Ev.fetchAsset b k := by
    intro e2 he2
    refine mem_stageAssets_trace env props.assets emptyTree e2 ?_
    rw [hst]
    exact he2
  cases r with
  | error msg =>
    left
    exact htr e h
  | ok t =>
    rcases List.mem_append.mp h with h1 | h1
    · left
      exact htr e h1
    · right
      simp only [writeObjectsTrace, List.mem_map] at h1
      obtain ⟨o, _, ho⟩ := h1
      exact ⟨o.key, ho.symm⟩

theorem mem_pollBlocks (dist : String) :
    ∀ (n i : Nat) (e : Ev), e ∈ pollBlocks dist i n →
      e = Ev.sleepMs 1000 ∨ ∃ j, e = Ev.getInvalidationPoll dist j := by
  intro n
  induction n with
  | zero =>
    intro i e h
    simp [pollBlocks] at h
  | succ n ih =>
    intro i e h
    simp only [pollBlocks, List.mem_cons] at h
    rcases h with h | h | h
    · left; exact h
    · right; exact ⟨i, h⟩
    · exact ih (i + 1) e h

theorem waitLoop_trace (get : Nat → GetRes) (dist : String) :
    ∀ (fuel i : Nat) (st : Option String),
      ∃ n, (waitLoop get dist fuel i st).2 = pollBlocks dist i n := by
  intro fuel
  induction fuel with
  | zero =>
    intro i st
    refine ⟨0, ?_⟩
    by_cases h : st = some "Completed"
    · simp [waitLoop, h, pollBlocks]
    · simp [waitLoop, h, pollBlocks]
  | succ fuel ih =>
    intro i st
    by_cases h : st = some "Completed"
    · exact ⟨0, by simp [waitLoop, h, pollBlocks]⟩
    · cases hg : get i with
      | ok s =>
        obtain ⟨n, hn⟩ := ih (i + 1) (some s)
        exact ⟨n + 1, by simp [waitLoop, h, hg, pollBlocks, hn]⟩
      | noSuchInvalidation =>
        obtain ⟨n, hn⟩ := ih (i + 1) none
        exact ⟨n + 1, by simp [waitLoop, h, hg, pollBlocks, hn]⟩
      | otherError msg =>
        exact ⟨1, by simp [waitLoop, h, hg, pollBlocks]⟩

theorem waitLoop_completed (get : Nat → GetRes) (dist : String) :
    ∀ (fuel i : Nat) (st : Option String),
      (waitLoop get dist fuel i st).1 = WaitOutcome.completed →
      st = some "Completed" ∨ ∃ j, get j = GetRes.ok "Completed" := by
  intro fuel
  induction fuel with
  | zero =>
    intro i st h
    by_cases hs : st = some "Completed"
    · left; exact hs
    · simp [waitLoop, hs] at h
  | succ fuel ih =>
    intro i st h
    by_cases hs : st = some "Completed"
    · left; exact hs
    · cases hg : get i with
      | ok s =>
        simp only [waitLoop, hs, if_false, hg] at h
        rcases ih (i + 1) (some s) h with hc | hc
        · right
          exact ⟨i, by rw [hg, Option.some.inj hc]⟩
        · right; exact hc
      | noSuchInvalidation =>
        simp only [waitLoop, hs, if_false, hg] at h
        rcases ih (i + 1) none h with hc | hc
        · simp at hc
        · right; exact hc
      | otherError msg =>
        simp only [waitLoop, hs, if_false, hg] at h
        simp at h

theorem waitLoop_failed (get : Nat → GetRes) (dist : String) :
    ∀ (fuel i : Nat) (st : Option String) (msg : String),
      (waitLoop get dist fuel i st).1 = WaitOutcome.failed msg →
      ∃ j, get j = GetRes.otherError msg := by
  intro fuel
  induction fuel with
  | zero =>
    intro i st msg h
    by_cases hs : st = some "Completed"
    · simp [waitLoop, hs] at h
    · simp [waitLoop, hs] at h
  | succ fuel ih =>
    intro i st msg h
    by_cases hs : st = some "Completed"
    · simp [waitLoop, hs] at h
    · cases hg : get i with
      | ok s =>
        simp only [waitLoop, hs, if_false, hg] at h
        exact ih (i + 1) (some s) msg h
      | noSuchInvalidation =>
        simp only [waitLoop, hs, if_false, hg] at h
        exact ih (i + 1) none msg h
      | otherError m =>
        simp only [waitLoop, hs, if_false, hg] at h
        exact ⟨i, by rw [hg, WaitOutcome.failed.inj h]⟩

theorem dispatchOne_nowait (env : Env) (fuel idx : Nat) (a : InvalidationAction)
    (h : a.waitForCompletion = false) :
    dispatchOne env fuel idx a
      = (DeployOutcome.ok, [Ev.createInvalidation a.distributionId (toString (env.now idx))]) := by
  simp [dispatchOne, h]

theorem dispatchOne_ok_wait (env : Env) (fuel idx : Nat) (a : InvalidationAction)
    (hw : a.waitForCompletion = true)
    (h : (dispatchOne env fuel idx a).1 = DeployOutcome.ok) :
    env.createStatus a.distributionId = "Completed" ∨
      ∃ j, env.getInvalidation a.distributionId j = GetRes.ok "Completed" := by
  simp only [dispatchOne, hw, if_true] at h
  cases hwl : (waitLoop (env.getInvalidation a.distributionId) a.distributionId fuel 0
      (some (env.createStatus a.distributionId))).1 with
  | completed =>
    rcases waitLoop_completed (env.getInvalidation a.distributionId) a.distributionId fuel 0
        (some (env.createStatus a.distributionId)) hwl with hc | hc
    · left
      exact Option.some.inj hc
    · right
      exact hc
  | failed msg =>
    rw [hwl] at h
    simp [waitOutcomeToDeploy] at h
  | outOfFuel =>
    rw [hwl] at h
    simp [waitOutcomeToDeploy] at h

theorem mem_dispatchOne_trace (env : Env) (fuel idx : Nat) (a : InvalidationAction) (e : Ev)
    (h : e ∈ (dispatchOne env fuel idx a).2) :
    (∃ d r, e = Ev.createInvalidation d r) ∨ e = Ev.sleepMs 1000 ∨
      ∃ d j, e = Ev.getInvalidationPoll d j := by
  by_cases hw : a.waitForCompletion = true
  · simp only [dispatchOne, hw, if_true, List.mem_cons] at h
    rcases h with h | h
    · left; exact ⟨_, _, h⟩
    · obtain ⟨n, hn⟩ := waitLoop_trace (env.getInvalidation a.distributionId)
        a.distributionId fuel 0 (some (env.createStatus a.distributionId))
      rw [hn] at h
      rcases mem_pollBlocks a.distributionId n 0 e h with h2 | ⟨j, hj⟩
      · right; left; exact h2
      · right; right; exact ⟨_, j, hj⟩
  · rw [dispatchOne_nowait env fuel idx a (Bool.eq_false_iff.mpr hw)] at h
    simp only [List.mem_singleton] at h
    left
    exact ⟨_, _, h⟩

theorem mem_dispatchInvalidations_trace (env : Env) (fuel : Nat) :
    ∀ (actions : List InvalidationAction) (idx : Nat) (e : Ev),
      e ∈ (dispatchInvalidations env fuel actions idx).2 →
      (∃ d r, e = Ev.createInvalidation d r) ∨ e = Ev.sleepMs 1000 ∨
        ∃ d j, e = Ev.getInvalidationPoll d j := by
  intro actions
  induction actions with
  | nil =>
    intro idx e h
    simp [dispatchInvalidations] at h
  | cons a rest ih =>
    intro idx e h
    cases hd : (dispatchOne env fuel idx a).1 with
    | ok =>
      simp only [dispatchInvalidations, hd] at h
      rcases List.mem_append.mp h with h1 | h1
      · exact mem_dispatchOne_trace env fuel idx a e h1
      · exact ih (idx + 1) e h1
    | error msg =>
      simp only [dispatchInvalidations, hd] at h
      exact mem_dispatchOne_trace env fuel idx a e h
    | hang =>
      simp only [dispatchInvalidations, hd] at h
      exact mem_dispatchOne_trace env fuel idx a e h

theorem deployMirror_bucket (env : Env) (fuel : Nat) (props : Props) (b0 : Bucket)
    (t : LocalTree) (tr : List Ev) :
    (deployMirror env fuel props b0 t tr).2.1 = syncBucket env.mimeLookup t b0 := by
  unfold deployMirror
  cases env.rmFinalResult with
  | some msg => rfl
  | none => rfl

theorem deployMirror_trace (env : Env) (fuel : Nat) (props : Props) (b0 : Bucket)
    (t : LocalTree) (tr : List Ev) :
    ∃ tr2, (deployMirror env fuel props b0 t tr).2.2
        = tr ++ [Ev.sync true, Ev.rmWorkArea false] ++ tr2 ∧
      ∀ e ∈ tr2, (∃ d r, e = Ev.createInvalidation d r) ∨ e = Ev.sleepMs 1000 ∨
        ∃ d j, e = Ev.getInvalidationPoll d j := by
  unfold deployMirror
  cases hr : env.rmFinalResult with
  | some msg =>
    refine ⟨[], by simp, ?_⟩
    intro e he
    simp at he
  | none =>
    refine ⟨(dispatchInvalidations env fuel props.invalidationActions 0).2, rfl, ?_⟩
    intro e he
    exact mem_dispatchInvalidations_trace env fuel props.invalidationActions 0 e he

theorem deployMirror_outcome_rm (env : Env) (fuel : Nat) (props : Props) (b0 : Bucket)
    (t : LocalTree) (tr : List Ev) (msg : String) (h : env.rmFinalResult = some msg) :
    (deployMirror env fuel props b0 t tr).1 = DeployOutcome.error msg := by
  unfold deployMirror
  rw [h]

theorem deployMirror_outcome_ok (env : Env) (fuel : Nat) (props : Props) (b0 : Bucket)
    (t : LocalTree) (tr : List Ev) (h : env.rmFinalResult = none) :
    (deployMirror env fuel props b0 t tr).1
      = (dispatchInvalidations env fuel props.invalidationActions 0).1 := by
  unfold deployMirror
  rw [h]

theorem deploy_delete (env : Env) (fuel : Nat) (event : Event) (b0 : Bucket)
    (h : event.requestType = RequestType.Delete) :
    deploy env fuel event b0
      = deployMirror env fuel event.props b0 emptyTree [Ev.rmWorkArea true, Ev.mkdirFinal] := by
  unfold deploy
  rw [if_pos h]

theorem deploy_nonDelete (env : Env) (fuel : Nat) (event : Event) (b0 : Bucket)
    (hreq : ¬ (event.requestType = RequestType.Delete))
    (hfetch : ∀ a ∈ event.props.assets,
      ∃ fs, env.fetchZip a.s3BucketName a.s3ObjectKey = Except.ok fs) :
    ∃ t, (∀ k, (t k).isSome = true ↔ k ∈ contributedPaths env event.props) ∧
      deploy env fuel event b0 =
        (if duplicateKeys (contributedPaths env event.props) = [] then
          deployMirror env fuel event.props b0 t
            ([Ev.rmWorkArea true, Ev.mkdirFinal] ++ (assemble env event.props).2)
        else
          (DeployOutcome.error (dupMsg (duplicateKeys (contributedPaths env event.props))), b0,
           [Ev.rmWorkArea true, Ev.mkdirFinal] ++ (assemble env event.props).2)) := by
  obtain ⟨t, hasm, hdom⟩ := assemble_ok env event.props hfetch
  refine ⟨t, hdom, ?_⟩
  unfold deploy
  rw [if_neg hreq]
  generalize htr : (assemble env event.props).2 = tr
  have hpair : assemble env event.props
      = (Except.ok (t, contributedPaths env event.props), tr) := by
    rw [← hasm, ← htr]
  rw [hpair]

theorem deployMirror_no_report (env : Env) (fuel : Nat) (props : Props) (b0 : Bucket)
    (t : LocalTree) (tr : List Ev) (htr : ∀ e ∈ tr, isReportEv e = false) :
    ∀ e ∈ (deployMirror env fuel props b0 t tr).2.2, isReportEv e = false := by
  intro e he
  obtain ⟨tr2, heq, hsh⟩ := deployMirror_trace env fuel props b0 t tr
  rw [heq] at he
  rcases List.mem_append.mp he with he1 | he2
  · rcases List.mem_append.mp he1 with he3 | he4
    · exact htr e he3
    · rcases List.mem_cons.mp he4 with h | h4
      · rw [h]; rfl
      · rw [List.mem_singleton.mp h4]; rfl
  · rcases hsh e he2 with ⟨d, r, h⟩ | h | ⟨d, j, h⟩ <;> rw [h] <;> rfl

theorem deploy_cases (env : Env) (fuel : Nat) (event : Event) (b0 : Bucket) :
    (∃ t tr, (∀ e ∈ tr, (∃ b k, e = Ev.fetchAsset b k) ∨ ∃ k, e = Ev.writeObject k) ∧
       deploy env fuel event b0 = deployMirror env fuel event.props b0 t
         (Ev.rmWorkArea true :: Ev.mkdirFinal :: tr)) ∨
    (∃ msg tr, (∀ e ∈ tr, (∃ b k, e = Ev.fetchAsset b k) ∨ ∃ k, e = Ev.writeObject k) ∧
       deploy env fuel event b0
         = (DeployOutcome.error msg, b0, Ev.rmWorkArea true :: Ev.mkdirFinal :: tr)) := by
  by_cases hreq : event.requestType = RequestType.Delete
  · left
    refine ⟨emptyTree, [], ?_, ?_⟩
    · intro e he
      simp at he
    · rw [deploy_delete env fuel event b0 hreq]
  · have hmem : ∀ e ∈ (assemble env event.props).2,
        (∃ b k, e = Ev.fetchAsset b k) ∨ ∃ k, e = Ev.writeObject k :=
      fun e he => mem_assemble_trace env event.props e he
    unfold deploy
    rw [if_neg hreq]
    rcases hst : assemble env event.props with ⟨r, tr⟩
    have htr : ∀ e ∈ tr, (∃ b k, e = Ev.fetchAsset b k) ∨ ∃ k, e = Ev.writeObject k := by
      intro e he
      refine hmem e ?_
      rw [hst]
      exact he
    cases r with
    | error msg =>
      right
      exact ⟨msg, tr, htr, rfl⟩
    | ok p =>
      obtain ⟨t, files⟩ := p
      by_cases hd : duplicateKeys files = []
      · left
        refine ⟨t, tr, htr, ?_⟩
        show (if duplicateKeys files = [] then
            deployMirror env fuel event.props b0 t ([Ev.rmWorkArea true, Ev.mkdirFinal] ++ tr)
          else
            (DeployOutcome.error (dupMsg (duplicateKeys files)), b0,
             [Ev.rmWorkArea true, Ev.mkdirFinal] ++ tr))
          = deployMirror env fuel event.props b0 t (Ev.rmWorkArea true :: Ev.mkdirFinal :: tr)
        rw [if_pos hd]
        rfl
      · right
        refine ⟨dupMsg (duplicateKeys files), tr, htr, ?_⟩
        show (if duplicateKeys files = [] then
            deployMirror env fuel event.props b0 t ([Ev.rmWorkArea true, Ev.mkdirFinal] ++ tr)
          else
            (DeployOutcome.error (dupMsg (duplicateKeys files)), b0,
             [Ev.rmWorkArea true, Ev.mkdirFinal] ++ tr))
          = (DeployOutcome.error (dupMsg (duplicateKeys files)), b0,
             Ev.rmWorkArea true :: Ev.mkdirFinal :: tr)
        rw [if_neg hd]
        rfl

theorem deploy_no_report (env : Env) (fuel : Nat) (event : Event) (b0 : Bucket) :
    ∀ e ∈ (deploy env fuel event b0).2.2, isReportEv e = false := by
  have hpre2 : ∀ (tr : List Ev),
      (∀ e2 ∈ tr, (∃ b k, e2 = Ev.fetchAsset b k) ∨ ∃ k, e2 = Ev.writeObject k) →
      ∀ e2 ∈ Ev.rmWorkArea true :: Ev.mkdirFinal :: tr, isReportEv e2 = false := by
    intro tr htr e2 he2
    rcases List.mem_cons.mp he2 with h | h2
    · rw [h]; rfl
    · rcases List.mem_cons.mp h2 with h | h3
      · rw [h]; rfl
      · rcases htr e2 h3 with ⟨b, k, h⟩ | ⟨k, h⟩ <;> rw [h] <;> rfl
  intro e he
  rcases deploy_cases env fuel event b0 with ⟨t, tr, htr, heq⟩ | ⟨msg, tr, htr, heq⟩
  · rw [heq] at he
    exact deployMirror_no_report env fuel event.props b0 t _ (hpre2 tr htr) e he
  · rw [heq] at he
    exact hpre2 tr htr e he

theorem deploy_trace_take2 (env : Env) (fuel : Nat) (event : Event) (b0 : Bucket) :
    ((deploy env fuel event b0).2.2).take 2 = [Ev.rmWorkArea true, Ev.mkdirFinal] := by
  rcases deploy_cases env fuel event b0 with ⟨t, tr, _, heq⟩ | ⟨msg, tr, _, heq⟩
  · rw [heq]
    obtain ⟨tr2, heq2, _⟩ := deployMirror_trace env fuel event.props b0 t _
    rw [heq2]
    rfl
  · rw [heq]
    rfl

theorem sendResponse_trace (env : Env) (i : Nat) (status : String) (reason : Option String)
    (event : Event) :
    (sendResponse env i status reason event).2
      = [Ev.report status reason event.logicalResourceId event.stackId event.requestId
           event.resourceType event.logicalResourceId] := by
  unfold sendResponse
  split <;> rfl

theorem sendResponse_ok (env : Env) (i : Nat) (status : String) (reason : Option String)
    (event : Event) (h : env.putStatus i < 400) :
    (sendResponse env i status reason event).1 = Except.ok () := by
  unfold sendResponse
  rw [if_neg (by omega)]

theorem sendResponse_err (env : Env) (i : Nat) (status : String) (reason : Option String)
    (event : Event) (h : 400 ≤ env.putStatus i) :
    (sendResponse env i status reason event).1 = Except.error (reportFailureMsg env i) := by
  unfold sendResponse
  rw [if_pos h]

theorem handlerReport_ok (env : Env) (event : Event) (b : Bucket) (tr : List Ev)
    (h : env.putStatus 0 < 400) :
    handlerReport env event b tr
      = (HandlerOutcome.ok, b, tr ++ (sendResponse env 0 "SUCCESS" none event).2) := by
  unfold handlerReport
  rw [sendResponse_ok env 0 "SUCCESS" none event h]

theorem handlerReport_err (env : Env) (event : Event) (b : Bucket) (tr : List Ev)
    (h : 400 ≤ env.putStatus 0) :
    handlerReport env event b tr
      = (HandlerOutcome.thrown (reportFailureMsg env 0), b,
         tr ++ (sendResponse env 0 "SUCCESS" none event).2
            ++ (sendResponse env 1 "FAILED" (some (reportFailureMsg env 0)) event).2) := by
  unfold handlerReport
  rw [sendResponse_err env 0 "SUCCESS" none event h]

theorem handler_skip (env : Env) (fuel : Nat) (event : Event) (b0 : Bucket)
    (h : env.skip = some "true") :
    handler env fuel event b0 = handlerReport env event b0 [] := by
  unfold handler
  rw [if_pos h]

theorem handler_deploy_ok (env : Env) (fuel : Nat) (event : Event) (b0 : Bucket)
    (hskip : ¬ (env.skip = some "true"))
    (h : (deploy env fuel event b0).1 = DeployOutcome.ok) :
    handler env fuel event b0
      = handlerReport env event (deploy env fuel event b0).2.1 (deploy env fuel event b0).2.2 := by
  unfold handler
  rw [if_neg hskip, h]

theorem handler_deploy_err (env : Env) (fuel : Nat) (event : Event) (b0 : Bucket) (msg : String)
    (hskip : ¬ (env.skip = some "true"))
    (h : (deploy env fuel event b0).1 = DeployOutcome.error msg) :
    handler env fuel event b0
      = (HandlerOutcome.thrown msg, (deploy env fuel event b0).2.1,
         (deploy env fuel event b0).2.2 ++ (sendResponse env 0 "FAILED" (some msg) event).2) := by
  unfold handler
  rw [if_neg hskip, h]

theorem handler_deploy_hang (env : Env) (fuel : Nat) (event : Event) (b0 : Bucket)
    (hskip : ¬ (env.skip = some "true"))
    (h : (deploy env fuel event b0).1 = DeployOutcome.hang) :
    (handler env fuel event b0).1 = HandlerOutcome.hang := by
  unfold handler
  rw [if_neg hskip, h]

theorem countReports_append (t1 t2 : List Ev) :
    countReports (t1 ++ t2) = countReports t1 + countReports t2 :=
  List.countP_append _ _ _

theorem countReports_send (env : Env) (i : Nat) (status : String) (reason : Option String)
    (event : Event) : countReports (sendResponse env i status reason event).2 = 1 := by
  rw [sendResponse_trace]
  rfl

theorem countReports_deploy (env : Env) (fuel : Nat) (event : Event) (b0 : Bucket) :
    countReports (deploy env fuel event b0).2.2 = 0 := by
  unfold countReports
  rw [List.countP_eq_zero]
  intro e he
  rw [deploy_no_report env fuel event b0 e he]
  simp

theorem countReports_handlerReport (env : Env) (event : Event) (b : Bucket) (tr : List Ev) :
    countReports (handlerReport env event b tr).2.2
      = countReports tr + (if env.putStatus 0 < 400 then 1 else 2) := by
  by_cases h : env.putStatus 0 < 400
  · rw [handlerReport_ok env event b tr h, if_pos h]
    show countReports (tr ++ (sendResponse env 0 "SUCCESS" none event).2)
        = countReports tr + 1
    rw [countReports_append, countReports_send]
  · have h4 : 400 ≤ env.putStatus 0 := by omega
    rw [handlerReport_err env event b tr h4, if_neg h]
    show countReports (tr ++ (sendResponse env 0 "SUCCESS" none event).2
        ++ (sendResponse env 1 "FAILED" (some (reportFailureMsg env 0)) event).2)
        = countReports tr + 2
    rw [countReports_append, countReports_append, countReports_send, countReports_send]

theorem callerRefs_append (t1 t2 : List Ev) :
    callerRefs (t1 ++ t2) = callerRefs t1 ++ callerRefs t2 :=
  List.filterMap_append _ _ _

theorem callerRefs_pollBlocks (dist : String) :
    ∀ (n i : Nat), callerRefs (pollBlocks dist i n) = [] := by
  intro n
  induction n with
  | zero => intro i; rfl
  | succ n ih =>
    intro i
    have h1 : callerRefs (pollBlocks dist i (n + 1))
        = callerRefs (pollBlocks dist (i + 1) n) := rfl
    rw [h1, ih]

theorem callerRefs_dispatchOne (env : Env) (fuel idx : Nat) (a : InvalidationAction) :
    callerRefs (dispatchOne env fuel idx a).2 = [toString (env.now idx)] := by
  by_cases hw : a.waitForCompletion = true
  · simp only [dispatchOne, hw, if_true]
    obtain ⟨n, hn⟩ := waitLoop_trace (env.getInvalidation a.distributionId) a.distributionId
      fuel 0 (some (env.createStatus a.distributionId))
    rw [hn]
    have h1 : callerRefs (Ev.createInvalidation a.distributionId (toString (env.now idx)) ::
        pollBlocks a.distributionId 0 n)
        = toString (env.now idx) :: callerRefs (pollBlocks a.distributionId 0 n) := rfl
    rw [h1, callerRefs_pollBlocks]
  · rw [dispatchOne_nowait env fuel idx a (Bool.eq_false_iff.mpr hw)]
    rfl

theorem report_not_in_silent_trace {tr : List Ev} {e : Ev}
    (htr : ∀ e2 ∈ tr, isReportEv e2 = false) (h : e ∈ tr)
    {st : String} {rsn : Option String} {pid sid rid rty lid : String}
    (hrep : e = Ev.report st rsn pid sid rid rty lid) : False := by
  have hf := htr e h
  rw [hrep] at hf
  simp [isReportEv] at hf

theorem mem_sendResponse_pid (env : Env) (i : Nat) (status : String) (reason : Option String)
    (event : Event) (e : Ev) (h : e ∈ (sendResponse env i status reason event).2)
    (st : String) (rsn : Option String) (pid sid rid rty lid : String)
    (hrep : e = Ev.report st rsn pid sid rid rty lid) : pid = event.logicalResourceId := by
  rw [sendResponse_trace] at h
  have he2 := List.mem_singleton.mp h
  rw [hrep] at he2
  injection he2

/-- C1: a request (other than Delete) whose contributors contribute some
relative path more than once makes `deploy` throw the duplicate-keys error
whose message lists exactly the paths contributed more than once; the bucket
is returned unchanged and no mirror sync (hence no bucket write or delete) is
ever issued. -/
theorem duplicate_keys_abort_before_mirror (env : Env) (fuel : Nat) (event : Event) (b0 : Bucket)
    (hreq : ¬ (event.requestType = RequestType.Delete))
    (hfetch : ∀ a ∈ event.props.assets,
      ∃ fs, env.fetchZip a.s3BucketName a.s3ObjectKey = Except.ok fs)
    (hdup : ∃ k, 1 < countOcc (contributedPaths env event.props) k) :
    (deploy env fuel event b0).1
        = DeployOutcome.error (dupMsg (duplicateKeys (contributedPaths env event.props))) ∧
    (deploy env fuel event b0).2.1 = b0 ∧
    (∀ e ∈ (deploy env fuel event b0).2.2, ∀ d, e ≠ Ev.sync d) ∧
    (∀ k, k ∈ duplicateKeys (contributedPaths env event.props)
        ↔ 1 < countOcc (contributedPaths env event.props) k) := by
  obtain ⟨t, hdom, hdeploy⟩ := deploy_nonDelete env fuel event b0 hreq hfetch
  obtain ⟨k0, hk0⟩ := hdup
  have hne : duplicateKeys (contributedPaths env event.props) ≠ [] :=
    duplicateKeys_ne_nil_of_dup _ k0 hk0
  rw [hdeploy, if_neg hne]
  refine ⟨rfl, rfl, ?_, fun k => mem_duplicateKeys_iff _ k⟩
  intro e he d
  rcases List.mem_append.mp he with h | h
  · rcases List.mem_cons.mp h with h1 | h1
    · rw [h1]; simp
    · rw [List.mem_singleton.mp h1]; simp
  · rcases mem_assemble_trace env event.props e h with ⟨b, k2, h1⟩ | ⟨k2, h1⟩ <;>
      rw [h1] <;> simp

/-- Witness for C1 at a Create request contributing `a.txt` twice. -/
theorem duplicate_keys_abort_before_mirror_witness :
    (¬ (eventDupObjects.requestType = RequestType.Delete)) ∧
    1 < countOcc (contributedPaths envBase eventDupObjects.props) "a.txt" ∧
    (deploy envBase 0 eventDupObjects bEmpty).1
      = DeployOutcome.error
          (dupMsg (duplicateKeys (contributedPaths envBase eventDupObjects.props))) := by
  refine ⟨by decide, by decide, ?_⟩
  exact (duplicate_keys_abort_before_mirror envBase 0 eventDupObjects bEmpty (by decide)
    (fun a ha => absurd ha (List.not_mem_nil a)) ⟨"a.txt", by decide⟩).1

/-- C2: after a successful non-Delete run with duplicate-free contributions,
the bucket's object set is exactly the union of archive-extracted paths and
inline keys (so every stale remote object is gone); every uploaded object
(one not kept unchanged from before) carries the content-type computed from
the mime lookup, and the lookup's fallback for an unrecognized extension is
`text/html`. -/
theorem successful_run_bucket_matches_contributions (env : Env) (fuel : Nat) (event : Event)
    (b0 : Bucket)
    (hreq : ¬ (event.requestType = RequestType.Delete))
    (hfetch : ∀ a ∈ event.props.assets,
      ∃ fs, env.fetchZip a.s3BucketName a.s3ObjectKey = Except.ok fs)
    (hnodup : duplicateKeys (contributedPaths env event.props) = [])
    (_hok : (deploy env fuel event b0).1 = DeployOutcome.ok) :
    (∀ k, ((deploy env fuel event b0).2.1 k).isSome = true
        ↔ k ∈ contributedPaths env event.props) ∧
    (∀ k v, (deploy env fuel event b0).2.1 k = some v →
        b0 k = some v ∨ v.2 = mimeContentType env.mimeLookup k) ∧
    (∀ k, env.mimeLookup k = none → mimeContentType env.mimeLookup k = "text/html") := by
  obtain ⟨t, hdom, hdeploy⟩ := deploy_nonDelete env fuel event b0 hreq hfetch
  rw [hdeploy, if_pos hnodup, deployMirror_bucket]
  refine ⟨?_, ?_, ?_⟩
  · intro k
    rw [syncBucket_isSome, hdom k]
  · intro k v hv
    exact syncBucket_uploaded env.mimeLookup t b0 k v hv
  · intro k hm
    simp [mimeContentType, hm]

/-- Witness for C2 at a Create request with a single inline object. -/
theorem successful_run_bucket_matches_contributions_witness :
    (deploy envBase 0 eventOneObject bEmpty).1 = DeployOutcome.ok ∧
    duplicateKeys (contributedPaths envBase eventOneObject.props) = [] ∧
    (((deploy envBase 0 eventOneObject bEmpty).2.1 "index.html").isSome = true
      ↔ "index.html" ∈ contributedPaths envBase eventOneObject.props) := by
  refine ⟨by decide, by decide, ?_⟩
  exact (successful_run_bucket_matches_contributions envBase 0 eventOneObject bEmpty
    (by decide) (fun a ha => absurd ha (List.not_mem_nil a)) (by decide) (by decide)).1
    "index.html"

/-- C3: on a Delete request the staging/assembly/validation steps are skipped
(no asset fetch and no inline write appears in the trace), the mirror runs
with `del: true` on the empty tree, and the resulting bucket is empty no
matter what was declared. -/
theorem delete_request_empties_bucket (env : Env) (fuel : Nat) (event : Event) (b0 : Bucket)
    (h : event.requestType = RequestType.Delete) :
    (∀ k, (deploy env fuel event b0).2.1 k = none) ∧
    (∀ e ∈ (deploy env fuel event b0).2.2, isStagingEv e = false) ∧
    Ev.sync true ∈ (deploy env fuel event b0).2.2 := by
  rw [deploy_delete env fuel event b0 h]
  obtain ⟨tr2, heq, hsh⟩ := deployMirror_trace env fuel event.props b0 emptyTree
    [Ev.rmWorkArea true, Ev.mkdirFinal]
  refine ⟨?_, ?_, ?_⟩
  · intro k
    rw [deployMirror_bucket]
    exact syncBucket_emptyTree env.mimeLookup b0 k
  · intro e he
    rw [heq] at he
    rcases List.mem_append.mp he with he1 | he2
    · rcases List.mem_append.mp he1 with he3 | he4
      · rcases List.mem_cons.mp he3 with h1 | h1
        · rw [h1]; rfl
        · rw [List.mem_singleton.mp h1]; rfl
      · rcases List.mem_cons.mp he4 with h1 | h1
        · rw [h1]; rfl
        · rw [List.mem_singleton.mp h1]; rfl
    · rcases hsh e he2 with ⟨d, r, h1⟩ | h1 | ⟨d, j, h1⟩ <;> rw [h1] <;> rfl
  · rw [heq]
    simp

/-- Witness for C3 at a concrete Delete request. -/
theorem delete_request_empties_bucket_witness :
    eventDelete.requestType = RequestType.Delete ∧
    (deploy envBase 0 eventDelete bEmpty).2.1 "index.html" = none ∧
    Ev.sync true ∈ (deploy envBase 0 eventDelete bEmpty).2.2 := by
  refine ⟨by decide, ?_, ?_⟩
  · exact (delete_request_empties_bucket envBase 0 eventDelete bEmpty (by decide)).1 "index.html"
  · exact (delete_request_empties_bucket envBase 0 eventDelete bEmpty (by decide)).2.2

/-- C4 counterexample: when reconciliation succeeds but the SUCCESS callback
`PUT` is answered 500, the handler's catch block sends a second, FAILED
callback — this execution path sends two callback reports, not exactly
one. -/
theorem success_report_failure_sends_second_report :
    countReports (handler envPut500first 0 eventTrivial bEmpty).2.2 = 2 := by decide

/-- C4 (amended): every non-hanging invocation sends at least one and at most
two callback reports, and exactly one whenever the first callback `PUT`
succeeds; the two-report path arises only when the SUCCESS send fails and a
FAILED report is then also sent. -/
theorem handler_report_count_bounds (env : Env) (fuel : Nat) (event : Event) (b0 : Bucket)
    (h : (handler env fuel event b0).1 ≠ HandlerOutcome.hang) :
    1 ≤ countReports (handler env fuel event b0).2.2 ∧
    countReports (handler env fuel event b0).2.2 ≤ 2 ∧
    (env.putStatus 0 < 400 → countReports (handler env fuel event b0).2.2 = 1) := by
  by_cases hskip : env.skip = some "true"
  · rw [handler_skip env fuel event b0 hskip, countReports_handlerReport]
    by_cases hp : env.putStatus 0 < 400
    · rw [if_pos hp]
      refine ⟨?_, ?_, fun _ => ?_⟩ <;> simp [countReports]
    · rw [if_neg hp]
      refine ⟨?_, ?_, fun hc => absurd hc hp⟩ <;> simp [countReports]
  · cases hd : (deploy env fuel event b0).1 with
    | hang =>
      exact absurd (handler_deploy_hang env fuel event b0 hskip hd) h
    | ok =>
      rw [handler_deploy_ok env fuel event b0 hskip hd, countReports_handlerReport,
        countReports_deploy]
      by_cases hp : env.putStatus 0 < 400
      · rw [if_pos hp]
        refine ⟨?_, ?_, fun _ => ?_⟩ <;> simp
      · rw [if_neg hp]
        refine ⟨?_, ?_, fun hc => absurd hc hp⟩ <;> simp
    | error msg =>
      have hc : countReports (handler env fuel event b0).2.2 = 1 := by
        rw [handler_deploy_err env fuel event b0 msg hskip hd]
        show countReports ((deploy env fuel event b0).2.2
            ++ (sendResponse env 0 "FAILED" (some msg) event).2) = 1
        rw [countReports_append, countReports_deploy, countReports_send]
      rw [hc]
      exact ⟨by omega, by omega, fun _ => rfl⟩

/-- Witness for the amended C4 on the benign environment. -/
theorem handler_report_count_bounds_witness :
    (handler envBase 0 eventTrivial bEmpty).1 ≠ HandlerOutcome.hang ∧
    countReports (handler envBase 0 eventTrivial bEmpty).2.2 = 1 :=
  ⟨by decide, (handler_report_count_bounds envBase 0 eventTrivial bEmpty (by decide)).2.2
    (by decide)⟩

/-- C5: with a failing callback transport, a `deploy` error is what the
handler re-throws (the failure of the FAILED send itself is swallowed), while
after a successful `deploy` the SUCCESS send's error is re-thrown, so the
invocation fails overall even though reconciliation succeeded. -/
theorem report_error_asymmetry (env : Env) (fuel : Nat) (event : Event) (b0 : Bucket)
    (hskip : ¬ (env.skip = some "true"))
    (hput : 400 ≤ env.putStatus 0) :
    (∀ msg, (deploy env fuel event b0).1 = DeployOutcome.error msg →
       (handler env fuel event b0).1 = HandlerOutcome.thrown msg) ∧
    ((deploy env fuel event b0).1 = DeployOutcome.ok →
       (handler env fuel event b0).1 = HandlerOutcome.thrown (reportFailureMsg env 0)) := by
  constructor
  · intro msg hd
    rw [handler_deploy_err env fuel event b0 msg hskip hd]
  · intro hd
    rw [handler_deploy_ok env fuel event b0 hskip hd,
      handlerReport_err env event _ _ hput]

/-- Witness for C5: with every callback `PUT` answered 500 and a trivially
successful deploy, the handler throws the SUCCESS send's error. -/
theorem report_error_asymmetry_witness :
    (¬ (envPutAll500.skip = some "true")) ∧ 400 ≤ envPutAll500.putStatus 0 ∧
    (handler envPutAll500 0 eventTrivial bEmpty).1
      = HandlerOutcome.thrown (reportFailureMsg envPutAll500 0) := by
  refine ⟨by decide, by decide, ?_⟩
  exact (report_error_asymmetry envPutAll500 0 eventTrivial bEmpty (by decide) (by decide)).2
    (by decide)

/-- C6: the wait loop reports completion only when the creation status or
some poll reached `Completed`; a failure can only come from a poll error
other than `NoSuchInvalidation` (so `NoSuchInvalidation` never aborts the
loop); the loop's trace is a sequence of poll iterations each consisting of a
1000 ms sleep followed by one poll; an action with `waitForCompletion` unset
creates its invalidation and returns success with no sleeping or polling;
and an action with `waitForCompletion` set returns success only when a
`Completed` status was observed. -/
theorem invalidation_wait_polling (env : Env) (get : Nat → GetRes) (dist : String)
    (fuel i idx : Nat) (st : Option String) (a : InvalidationAction) :
    ((waitLoop get dist fuel i st).1 = WaitOutcome.completed →
       st = some "Completed" ∨ ∃ j, get j = GetRes.ok "Completed") ∧
    (∀ msg, (waitLoop get dist fuel i st).1 = WaitOutcome.failed msg →
       ∃ j, get j = GetRes.otherError msg) ∧
    (∃ n, (waitLoop get dist fuel i st).2 = pollBlocks dist i n) ∧
    (a.waitForCompletion = false →
       dispatchOne env fuel idx a
         = (DeployOutcome.ok,
            [Ev.createInvalidation a.distributionId (toString (env.now idx))])) ∧
    (a.waitForCompletion = true → (dispatchOne env fuel idx a).1 = DeployOutcome.ok →
       env.createStatus a.distributionId = "Completed" ∨
         ∃ j, env.getInvalidation a.distributionId j = GetRes.ok "Completed") :=
  ⟨waitLoop_completed get dist fuel i st,
   fun msg h => waitLoop_failed get dist fuel i st msg h,
   waitLoop_trace get dist fuel i st,
   fun h => dispatchOne_nowait env fuel idx a h,
   fun hw h => dispatchOne_ok_wait env fuel idx a hw h⟩

/-- Witness for C6: a run whose first poll hits `NoSuchInvalidation` still
completes, its trace is made of 1-second poll blocks, and a no-wait action
performs no polling. -/
theorem invalidation_wait_polling_witness :
    (waitLoop pollsC6 "D" 5 0 (some "InProgress")).1 = WaitOutcome.completed ∧
    pollsC6 0 = GetRes.noSuchInvalidation ∧
    (∃ n, (waitLoop pollsC6 "D" 5 0 (some "InProgress")).2 = pollBlocks "D" 0 n) ∧
    dispatchOne envBase 5 0 { distributionId := "D", waitForCompletion := false }
      = (DeployOutcome.ok, [Ev.createInvalidation "D" "0"]) := by
  refine ⟨by decide, by decide, ?_, ?_⟩
  · exact (invalidation_wait_polling envBase pollsC6 "D" 5 0 0 (some "InProgress")
      { distributionId := "D", waitForCompletion := false }).2.2.1
  · exact (invalidation_wait_polling envBase pollsC6 "D" 5 0 0 (some "InProgress")
      { distributionId := "D", waitForCompletion := false }).2.2.2.1 rfl

/-- C7 counterexample: when the final work-area removal throws, `deploy`
propagates that error and the handler reports it in a FAILED callback — the
end-of-run cleanup is not best-effort, and its failure is a reportable
error. -/
theorem final_cleanup_failure_is_reported :
    (handler envRmFail 0 eventDelete bEmpty).1 = HandlerOutcome.thrown "EACCES: cleanup failed" ∧
    Ev.report "FAILED" (some "EACCES: cleanup failed") "L" "s" "r"
        "Custom::ManagedBucketObjects" "L" ∈ (handler envRmFail 0 eventDelete bEmpty).2.2 := by
  constructor
  · decide
  · decide

/-- C7 (amended): the work area is destroyed with `force` (tolerating
absence) and recreated at the start of every non-skipped invocation; on every
invocation whose mirror ran (any request type) it is destroyed again, without
`force`, and a failure of that final removal propagates as the run's error
and is reported in a FAILED callback instead of being swallowed. -/
theorem work_area_lifecycle (env : Env) (fuel : Nat) (event : Event) (b0 : Bucket)
    (msg : String) :
    ((deploy env fuel event b0).2.2).take 2 = [Ev.rmWorkArea true, Ev.mkdirFinal] ∧
    (env.rmFinalResult = some msg → Ev.sync true ∈ (deploy env fuel event b0).2.2 →
       (deploy env fuel event b0).1 = DeployOutcome.error msg ∧
       Ev.rmWorkArea false ∈ (deploy env fuel event b0).2.2) ∧
    (env.rmFinalResult = some msg → Ev.sync true ∈ (deploy env fuel event b0).2.2 →
       ¬ (env.skip = some "true") →
       (handler env fuel event b0).1 = HandlerOutcome.thrown msg ∧
       Ev.report "FAILED" (some msg) event.logicalResourceId event.stackId event.requestId
           event.resourceType event.logicalResourceId ∈ (handler env fuel event b0).2.2) := by
  have hmirror : env.rmFinalResult = some msg → Ev.sync true ∈ (deploy env fuel event b0).2.2 →
      (deploy env fuel event b0).1 = DeployOutcome.error msg ∧
      Ev.rmWorkArea false ∈ (deploy env fuel event b0).2.2 := by
    intro hrm hsync
    rcases deploy_cases env fuel event b0 with ⟨t, tr, htr, heq⟩ | ⟨msg2, tr, htr, heq⟩
    · rw [heq]
      obtain ⟨tr2, heq2, _⟩ := deployMirror_trace env fuel event.props b0 t
        (Ev.rmWorkArea true :: Ev.mkdirFinal :: tr)
      constructor
      · exact deployMirror_outcome_rm env fuel event.props b0 t _ msg hrm
      · rw [heq2]
        simp
    · exfalso
      rw [heq] at hsync
      rcases List.mem_cons.mp hsync with h | h
      · simp at h
      · rcases List.mem_cons.mp h with h2 | h2
        · simp at h2
        · rcases htr _ h2 with ⟨b, k, h3⟩ | ⟨k, h3⟩ <;> simp at h3
  refine ⟨deploy_trace_take2 env fuel event b0, hmirror, ?_⟩
  intro hrm hsync hskip
  obtain ⟨herr, _⟩ := hmirror hrm hsync
  rw [handler_deploy_err env fuel event b0 msg hskip herr]
  constructor
  · rfl
  · refine List.mem_append.mpr (Or.inr ?_)
    rw [sendResponse_trace]
    exact List.mem_singleton.mpr rfl

/-- Witness for the amended C7: a Create run (not a Delete) whose mirror
succeeded and whose final cleanup throws ends in that error, and the handler
reports it as FAILED. -/
theorem work_area_lifecycle_witness :
    envRmFail.rmFinalResult = some "EACCES: cleanup failed" ∧
    Ev.sync true ∈ (deploy envRmFail 0 eventOneObject bEmpty).2.2 ∧
    (deploy envRmFail 0 eventOneObject bEmpty).1
      = DeployOutcome.error "EACCES: cleanup failed" ∧
    (handler envRmFail 0 eventOneObject bEmpty).1
      = HandlerOutcome.thrown "EACCES: cleanup failed" := by
  refine ⟨by decide, by decide, ?_, ?_⟩
  · exact ((work_area_lifecycle envRmFail 0 eventOneObject bEmpty "EACCES: cleanup failed").2.1
      (by decide) (by decide)).1
  · exact ((work_area_lifecycle envRmFail 0 eventOneObject bEmpty "EACCES: cleanup failed").2.2
      (by decide) (by decide) (by decide)).1

/-- C8 counterexample: two invalidation requests created in the same
millisecond (`Date.now()` returning 0 both times) carry the same caller
reference `"0"` — the idempotency tokens are not pairwise distinct. -/
theorem same_millisecond_caller_references_collide :
    callerRefs (deploy envBase 0 eventTwoInvalidations bEmpty).2.2 = ["0", "0"] ∧
    ¬ (callerRefs (deploy envBase 0 eventTwoInvalidations bEmpty).2.2).Nodup := by
  constructor
  · decide
  · decide

/-- C8 (amended): every cache-invalidation request — wait-enabled or not —
carries as caller reference exactly the millisecond clock reading at its
creation, rendered in decimal: the dispatcher's k-th request carries
`toString (env.now (idx + k))`, so tokens are distinct only when those
renderings differ and two calls within the same millisecond share a token;
when the dispatcher succeeds, every declared action received such a token. -/
theorem caller_references_are_timestamps (env : Env) (fuel : Nat)
    (actions : List InvalidationAction) (idx : Nat) :
    ∃ n, n ≤ actions.length ∧
      callerRefs (dispatchInvalidations env fuel actions idx).2 = expectedRefs env idx n ∧
      ((dispatchInvalidations env fuel actions idx).1 = DeployOutcome.ok →
        n = actions.length) := by
  induction actions generalizing idx with
  | nil =>
    exact ⟨0, Nat.le_refl 0, rfl, fun _ => rfl⟩
  | cons a rest ih =>
    cases hd : (dispatchOne env fuel idx a).1 with
    | ok =>
      obtain ⟨n, hle, heq, hok⟩ := ih (idx + 1)
      refine ⟨n + 1, ?_, ?_, ?_⟩
      · show n + 1 ≤ rest.length + 1
        omega
      · simp only [dispatchInvalidations, hd]
        rw [callerRefs_append, callerRefs_dispatchOne, heq]
        rfl
      · intro hall
        simp only [dispatchInvalidations, hd] at hall
        rw [hok hall]
        rfl
    | error msg =>
      refine ⟨1, ?_, ?_, ?_⟩
      · show 1 ≤ rest.length + 1
        omega
      · simp only [dispatchInvalidations, hd]
        rw [callerRefs_dispatchOne]
        rfl
      · intro hall
        simp only [dispatchInvalidations, hd] at hall
        exact DeployOutcome.noConfusion hall
    | hang =>
      refine ⟨1, ?_, ?_, ?_⟩
      · show 1 ≤ rest.length + 1
        omega
      · simp only [dispatchInvalidations, hd]
        rw [callerRefs_dispatchOne]
        rfl
      · intro hall
        simp only [dispatchInvalidations, hd] at hall
        exact DeployOutcome.noConfusion hall

/-- Witness for the amended C8 applied to a single wait-enabled action that
completes: its one request carries the clock reading at call index 0. -/
theorem caller_references_are_timestamps_witness :
    ∃ n, n ≤ ([{ distributionId := "D", waitForCompletion := true }] :
        List InvalidationAction).length ∧
      callerRefs (dispatchInvalidations envBase 5
          [{ distributionId := "D", waitForCompletion := true }] 0).2
        = expectedRefs envBase 0 n ∧
      ((dispatchInvalidations envBase 5
          [{ distributionId := "D", waitForCompletion := true }] 0).1 = DeployOutcome.ok →
        n = 1) :=
  caller_references_are_timestamps envBase 5
    [{ distributionId := "D", waitForCompletion := true }] 0

/-- C9: when the SKIP environment flag is the string "true", the handler
leaves the bucket untouched, its trace consists only of callback reports (no
staging, assembly, mirror or invalidation event), the first thing it does is
send the SUCCESS report, and with a healthy transport the invocation returns
normally. -/
theorem skip_flag_short_circuits (env : Env) (fuel : Nat) (event : Event) (b0 : Bucket)
    (h : env.skip = some "true") :
    (handler env fuel event b0).2.1 = b0 ∧
    (∀ e ∈ (handler env fuel event b0).2.2, isReportEv e = true) ∧
    ((handler env fuel event b0).2.2).head?
      = some (Ev.report "SUCCESS" none event.logicalResourceId event.stackId event.requestId
          event.resourceType event.logicalResourceId) ∧
    (env.putStatus 0 < 400 → (handler env fuel event b0).1 = HandlerOutcome.ok) := by
  rw [handler_skip env fuel event b0 h]
  by_cases hp : env.putStatus 0 < 400
  · rw [handlerReport_ok env event b0 [] hp]
    refine ⟨rfl, ?_, ?_, fun _ => rfl⟩
    · intro e he
      rw [List.nil_append, sendResponse_trace] at he
      rw [List.mem_singleton.mp he]
      rfl
    · show ([] ++ (sendResponse env 0 "SUCCESS" none event).2).head? = _
      rw [List.nil_append, sendResponse_trace]
      rfl
  · have hp4 : 400 ≤ env.putStatus 0 := by omega
    rw [handlerReport_err env event b0 [] hp4]
    refine ⟨rfl, ?_, ?_, fun hc => absurd hc hp⟩
    · intro e he
      rcases List.mem_append.mp he with h1 | h1
      · rw [List.nil_append, sendResponse_trace] at h1
        rw [List.mem_singleton.mp h1]
        rfl
      · rw [sendResponse_trace] at h1
        rw [List.mem_singleton.mp h1]
        rfl
    · show (([] ++ (sendResponse env 0 "SUCCESS" none event).2)
          ++ (sendResponse env 1 "FAILED" (some (reportFailureMsg env 0)) event).2).head? = _
      rw [List.nil_append, sendResponse_trace]
      rfl

/-- Witness for C9 with the SKIP flag set. -/
theorem skip_flag_short_circuits_witness :
    envSkip.skip = some "true" ∧
    (handler envSkip 0 eventTrivial bEmpty).1 = HandlerOutcome.ok ∧
    ((handler envSkip 0 eventTrivial bEmpty).2.2).head?
      = some (Ev.report "SUCCESS" none "L" "s" "r" "Custom::ManagedBucketObjects" "L") := by
  refine ⟨by decide, ?_, ?_⟩
  · exact (skip_flag_short_circuits envSkip 0 eventTrivial bEmpty (by decide)).2.2.2 (by decide)
  · exact (skip_flag_short_circuits envSkip 0 eventTrivial bEmpty (by decide)).2.2.1

theorem handlerReport_pid (env : Env) (event : Event) (b : Bucket) (tr : List Ev)
    (htr : ∀ e2 ∈ tr, isReportEv e2 = false) :
    ∀ e ∈ (handlerReport env event b tr).2.2,
      ∀ (st : String) (rsn : Option String) (pid sid rid rty lid : String),
        e = Ev.report st rsn pid sid rid rty lid → pid = event.logicalResourceId := by
  intro e he st rsn pid sid rid rty lid hrep
  by_cases hp : env.putStatus 0 < 400
  · rw [handlerReport_ok env event b tr hp] at he
    rcases List.mem_append.mp he with h1 | h1
    · exact (report_not_in_silent_trace htr h1 hrep).elim
    · exact mem_sendResponse_pid env 0 "SUCCESS" none event e h1 st rsn pid sid rid rty lid hrep
  · have hp4 : 400 ≤ env.putStatus 0 := by omega
    rw [handlerReport_err env event b tr hp4] at he
    rcases List.mem_append.mp he with h1 | h1
    · rcases List.mem_append.mp h1 with h2 | h2
      · exact (report_not_in_silent_trace htr h2 hrep).elim
      · exact mem_sendResponse_pid env 0 "SUCCESS" none event e h2 st rsn pid sid rid rty lid hrep
    · exact mem_sendResponse_pid env 1 "FAILED" (some (reportFailureMsg env 0)) event e h1
        st rsn pid sid rid rty lid hrep

/-- C10: every callback report the handler sends carries
`PhysicalResourceId` equal to the event's `LogicalResourceId`, on every
execution path. -/
theorem physical_resource_id_equals_logical (env : Env) (fuel : Nat) (event : Event)
    (b0 : Bucket) :
    ∀ e ∈ (handler env fuel event b0).2.2,
      ∀ (st : String) (rsn : Option String) (pid sid rid rty lid : String),
        e = Ev.report st rsn pid sid rid rty lid → pid = event.logicalResourceId := by
  intro e he st rsn pid sid rid rty lid hrep
  by_cases hskip : env.skip = some "true"
  · rw [handler_skip env fuel event b0 hskip] at he
    exact handlerReport_pid env event b0 [] (by intro e2 he2; simp at he2) e he
      st rsn pid sid rid rty lid hrep
  · cases hd : (deploy env fuel event b0).1 with
    | hang =>
      rw [show handler env fuel event b0
          = (HandlerOutcome.hang, (deploy env fuel event b0).2.1,
             (deploy env fuel event b0).2.2) by unfold handler; rw [if_neg hskip, hd]] at he
      exact (report_not_in_silent_trace (deploy_no_report env fuel event b0) he hrep).elim
    | ok =>
      rw [handler_deploy_ok env fuel event b0 hskip hd] at he
      exact handlerReport_pid env event (deploy env fuel event b0).2.1
        (deploy env fuel event b0).2.2 (deploy_no_report env fuel event b0) e he
        st rsn pid sid rid rty lid hrep
    | error msg =>
      rw [handler_deploy_err env fuel event b0 msg hskip hd] at he
      rcases List.mem_append.mp he with h1 | h1
      · exact (report_not_in_silent_trace (deploy_no_report env fuel event b0) h1 hrep).elim
      · exact mem_sendResponse_pid env 0 "FAILED" (some msg) event e h1
          st rsn pid sid rid rty lid hrep

/-- Witness for C10 at the SUCCESS report of a benign run. -/
theorem physical_resource_id_equals_logical_witness :
    Ev.report "SUCCESS" none "L" "s" "r" "Custom::ManagedBucketObjects" "L"
        ∈ (handler envBase 0 eventTrivial bEmpty).2.2 ∧
    ("L" : String) = eventTrivial.logicalResourceId := by
  refine ⟨by decide, ?_⟩
  exact physical_resource_id_equals_logical envBase 0 eventTrivial bEmpty
    (Ev.report "SUCCESS" none "L" "s" "r" "Custom::ManagedBucketObjects" "L") (by decide)
    "SUCCESS" none "L" "s" "r" "Custom::ManagedBucketObjects" "L" rfl
